import Mathlib

/-!
Verification development for `multi_provider_extractor.py`, a text-pattern
extraction utility for pension-statement text.  The Python program classifies
the input text by keyword heuristics (`detect_provider`) and then applies
provider-specific regular-expression rules (`extract_aj_bell`,
`extract_morningstar`) to build a normalized record; unrecognized providers
get a fixed fallback record (`main`).

The embedding works on `List Char`.  Each regular expression used by the
source is embedded as a dedicated deterministic matcher that reproduces the
backtracking semantics of Python `re.search` for that particular pattern
(leftmost start position wins; greedy and lazy quantifiers are resolved the
way the surrounding pattern forces them to be).  Character classes `\d`,
`\s`, `[A-Z]`, `[a-z]` are taken at their ASCII meaning.  Numbers are
modelled as exact rationals; Python `float(...)` calls are embedded as
`pyFloat`, which returns `none` exactly when `float` would raise
`ValueError`, so each extraction function returns an `Option` record with
`none` marking a raised exception.  Rational arithmetic is performed through
`mkRat`-based helpers (`qadd`, `qdivNat`) that the kernel can evaluate;
they are proven equal to ordinary `+` and `/` below.
-/

/-- Test for the characters matched by the regex class `\s` (Python ASCII
whitespace: space, tab, newline, carriage return, vertical tab, form feed). -/
def isPySpace (c : Char) : Bool :=
  c = ' ' || c = '\t' || c = '\n' || c = '\r' || c = '\x0b' || c = '\x0c'

/-- Greedy run of characters satisfying `p`: returns the maximal prefix whose
characters all satisfy `p`, together with the rest of the list. -/
def takeRun (p : Char → Bool) : List Char → List Char × List Char
  | [] => ([], [])
  | c :: t =>
    if p c then
      let r := takeRun p t
      (c :: r.1, r.2)
    else ([], c :: t)

/-- Literal fragment of a pattern: succeeds when `pat` is a prefix of the
input and returns the input with that prefix removed. -/
def lit (pat : List Char) (cs : List Char) : Option (List Char) :=
  if pat.isPrefixOf cs then some (cs.drop pat.length) else none

/-- Embedding of the Python substring test `pat in hay`. -/
def containsSub (pat : List Char) : List Char → Bool
  | [] => pat.isPrefixOf []
  | c :: t => pat.isPrefixOf (c :: t) || containsSub pat t

/-- Embedding of `re.search`: try the position matcher `m` at every start
position from left to right and return the first success. -/
def reSearch {α : Type} (m : List Char → Option α) : List Char → Option α
  | [] => m []
  | c :: t =>
    match m (c :: t) with
    | some a => some a
    | none => reSearch m t

/-- Characters consumed by a lazy `.*?` (with `re.DOTALL`) that stops at the
first position where one of the `stops` literals begins (a lookahead), or
where the `$` of the lookahead holds.  The patterns using this are compiled
without `re.MULTILINE`, so `$` matches at the end of the input or just
before one final newline; the argument is always the full remainder of the
input, so the singleton `['\n']` case is exactly that anchor position. -/
def takeUntilBoundary (stops : List (List Char)) : List Char → List Char
  | [] => []
  | ['\n'] => []
  | c :: t =>
    if stops.any (fun s => s.isPrefixOf (c :: t)) then []
    else c :: takeUntilBoundary stops t

/-- Embedding of Python `str.replace(",", "")` as used on captured amounts. -/
def stripCommas (s : List Char) : List Char := s.filter (fun c => c ≠ ',')

/-- Embedding of Python `str.strip()` (ASCII whitespace). -/
def pyStrip (s : List Char) : List Char :=
  ((s.dropWhile isPySpace).reverse.dropWhile isPySpace).reverse

/-- Numeric value of a digit string (most significant digit first). -/
def digitsVal (s : List Char) : Nat :=
  s.foldl (fun a c => 10 * a + (c.toNat - 48)) 0

/-- Embedding of Python `float(s)` restricted to the shapes this program can
pass to it: strings of decimal digits and dots.  The call succeeds exactly
when the string holds at least one digit and at most one dot, and then the
value is the exact decimal it denotes; otherwise `float` raises `ValueError`,
embedded as `none`.  The result is built with `mkRat` so that the kernel can
evaluate it. -/
def pyFloat (s : List Char) : Option ℚ :=
  if s.all (fun c => c.isDigit || c = '.') && s.any (fun c => c.isDigit) &&
      s.count '.' ≤ 1 then
    let whole := s.takeWhile (fun c => c ≠ '.')
    let frac := (s.dropWhile (fun c => c ≠ '.')).drop 1
    some (mkRat (digitsVal whole * 10 ^ frac.length + digitsVal frac) (10 ^ frac.length))
  else
    none

/-- Kernel-evaluable addition on `ℚ` (proven equal to `+` in `qadd_eq_add`). -/
def qadd (a b : ℚ) : ℚ :=
  mkRat (a.num * (b.den : ℤ) + b.num * (a.den : ℤ)) (a.den * b.den)

/-- Kernel-evaluable division of a rational by a natural number (proven equal
to `/` in `qdivNat_eq_div`). -/
def qdivNat (a : ℚ) (n : ℕ) : ℚ := mkRat a.num (a.den * n)

/-- Position matcher for the regex fragment `[\d,]+\.\d{2}` (a currency
amount).  The greedy class run cannot backtrack usefully because a dot is not
in the class, so the maximal run followed by a dot and exactly two digits is
the only candidate.  Returns the captured amount and the rest of the input. -/
def matchAmount (cs : List Char) : Option (List Char × List Char) :=
  let r := takeRun (fun c => c.isDigit || c = ',') cs
  if r.1.isEmpty then none
  else
    match r.2 with
    | '.' :: d1 :: d2 :: rest =>
      if d1.isDigit && d2.isDigit then some (r.1 ++ '.' :: [d1, d2], rest)
      else none
    | _ => none

/-- Position matcher for `£([\d,]+\.\d{2})`: a pound sign followed by a
currency amount; returns the captured amount. -/
def poundAmountAt (cs : List Char) : Option (List Char) :=
  match lit ['£'] cs with
  | some r => (matchAmount r).map (fun x => x.1)
  | none => none

/-- Position matcher for `([\d.]+)%`: a greedy run of digits and dots that
must be followed directly by a percent sign; returns the captured run.
Backtracking inside the run cannot succeed because every earlier stop leaves
a class character where the percent sign is required. -/
def matchPctCapture (cs : List Char) : Option (List Char × List Char) :=
  let r := takeRun (fun c => c.isDigit || c = '.') cs
  if r.1.isEmpty then none
  else
    match r.2 with
    | '%' :: rest => some (r.1, rest)
    | _ => none

/-- Fragment `\s+` when the following pattern element can never match a
whitespace character: only the maximal run can succeed, and it must be
nonempty.  Returns the run and the rest. -/
def spaces1 (cs : List Char) : Option (List Char × List Char) :=
  let r := takeRun isPySpace cs
  if r.1.isEmpty then none else some (r.1, r.2)

/-- Fragment `\s*` when the following pattern element can never match a
whitespace character: skip the maximal whitespace run. -/
def spaces0 (cs : List Char) : List Char := (takeRun isPySpace cs).2

/-- Position matcher for the regex fragment `[A-Z][a-z]+` (one capitalized
word); returns the matched word and the rest. -/
def matchWord (cs : List Char) : Option (List Char × List Char) :=
  match cs with
  | [] => none
  | c :: t =>
    if c.isUpper then
      let r := takeRun Char.isLower t
      if r.1.isEmpty then none else some (c :: r.1, r.2)
    else none

/-- Greedy repetition `(?:\s+[A-Z][a-z]+)*`: as many space-separated
capitalized words as possible; returns the consumed characters and the rest.
Nothing follows the repetition in the patterns that use it, so the greedy
maximum is the match. -/
def matchMoreWords : List Char → List Char × List Char
  | [] => ([], [])
  | c :: t =>
    if isPySpace c then
      match h : matchWord (takeRun isPySpace t).2 with
      | some wr =>
        let m := matchMoreWords wr.2
        (c :: ((takeRun isPySpace t).1 ++ wr.1 ++ m.1), m.2)
      | none => ([], c :: t)
    else ([], c :: t)
termination_by cs => cs.length
decreasing_by
  have hTake : ∀ (p : Char → Bool) (l : List Char),
      ((takeRun p l).2).length ≤ l.length := by
    intro p l
    induction l with
    | nil => simp [takeRun]
    | cons c2 t2 ih =>
      by_cases hp : p c2 <;> simp [takeRun, hp]
      exact Nat.le_succ_of_le ih
  have hWord : ∀ (cs : List Char) (wr2 : List Char × List Char),
      matchWord cs = some wr2 → wr2.2.length < cs.length := by
    intro cs wr2 h2
    cases cs with
    | nil => simp [matchWord] at h2
    | cons c2 t2 =>
      simp only [matchWord] at h2
      by_cases hu : c2.isUpper
      · simp only [hu, if_true] at h2
        by_cases he : (takeRun Char.isLower t2).1.isEmpty
        · simp [he] at h2
        · simp only [he, if_false] at h2
          cases h2
          simpa using Nat.lt_succ_of_le (hTake Char.isLower t2)
      · simp [hu] at h2
  have h1 := hWord _ _ h
  have h2 := hTake isPySpace t
  simp only [List.length_cons]
  omega

/-- Position matcher used for the AJ Bell client-name regex
`(Mr|Mrs|Ms)\s+([A-Z][a-z]+(?:\s+[A-Z][a-z]+)+)` with one given title
alternative; returns group 0 (title, spaces and at least two words). -/
def titleNameAt (title : List Char) (cs : List Char) : Option (List Char) :=
  match lit title cs with
  | none => none
  | some r1 =>
    match spaces1 r1 with
    | none => none
    | some sp =>
      match matchWord sp.2 with
      | none => none
      | some w1 =>
        let m := matchMoreWords w1.2
        if m.1.isEmpty then none
        else some (title ++ sp.1 ++ w1.1 ++ m.1)

/-- Position matcher for the full AJ Bell client-name regex: the alternation
tries `Mr`, `Mrs`, `Ms` in pattern order. -/
def matchClientAt (cs : List Char) : Option (List Char) :=
  titleNameAt "Mr".toList cs <|> titleNameAt "Mrs".toList cs <|>
    titleNameAt "Ms".toList cs

/-- Position matcher for `(SCC\d+)` (AJ Bell account number). -/
def matchSCCAt (cs : List Char) : Option (List Char) :=
  match lit "SCC".toList cs with
  | none => none
  | some r =>
    let d := takeRun Char.isDigit r
    if d.1.isEmpty then none else some ("SCC".toList ++ d.1)

/-- Position matcher for
`ISA - Performance summary.*?(?=ISA - Performance Analysis|ISA - Holdings|$)`
with `re.DOTALL`; returns group 0 (the ISA section text). -/
def matchIsaSectionAt (cs : List Char) : Option (List Char) :=
  match lit "ISA - Performance summary".toList cs with
  | none => none
  | some r =>
    some ("ISA - Performance summary".toList ++
      takeUntilBoundary
        ["ISA - Performance Analysis".toList, "ISA - Holdings".toList] r)

/-- Position matcher for
`SIPP - Performance summary.*?(?=SIPP - Performance Analysis|SIPP - Holdings|$)`
with `re.DOTALL`; the source searches for this section and then does nothing
with it. -/
def matchSippSectionAt (cs : List Char) : Option (List Char) :=
  match lit "SIPP - Performance summary".toList cs with
  | none => none
  | some r =>
    some ("SIPP - Performance summary".toList ++
      takeUntilBoundary
        ["SIPP - Performance Analysis".toList, "SIPP - Holdings".toList] r)

/-- Position matcher for
`Total\s+-\s+[\d,]+\.\d{2}\s+-\s+([\d,]+\.\d{2})` (the holdings Total row);
returns the second captured amount. -/
def matchHoldingsAt (cs : List Char) : Option (List Char) :=
  (lit "Total".toList cs).bind fun r1 =>
  (spaces1 r1).bind fun s1 =>
  (lit ['-'] s1.2).bind fun r2 =>
  (spaces1 r2).bind fun s2 =>
  (matchAmount s2.2).bind fun a1 =>
  (spaces1 a1.2).bind fun s3 =>
  (lit ['-'] s3.2).bind fun r3 =>
  (spaces1 r3).bind fun s4 =>
  (matchAmount s4.2).map fun a2 => a2.1

/-- Position matcher for `£([\d,]+\.\d{2})\s+[\d.]+%` (the summary-line value
fallback, applied to the ISA section text). -/
def matchIsaValueAt (cs : List Char) : Option (List Char) :=
  (lit ['£'] cs).bind fun r1 =>
  (matchAmount r1).bind fun a =>
  (spaces1 a.2).bind fun s =>
  (let d := takeRun (fun c => c.isDigit || c = '.') s.2
   if d.1.isEmpty then none
   else (lit ['%'] d.2).map fun _ => a.1)

/-- Lazy gap of `Cash in.*?£([\d,]+\.\d{2})` (no `re.DOTALL`, so the gap may
not cross a newline): try `£` plus amount at each position, extending the gap
one non-newline character at a time. -/
def cashGap : List Char → Option (List Char)
  | [] => none
  | c :: t =>
    match poundAmountAt (c :: t) with
    | some cap => some cap
    | none => if c = '\n' then none else cashGap t

/-- Position matcher for `Cash in.*?£([\d,]+\.\d{2})` (contributions). -/
def matchCashInAt (cs : List Char) : Option (List Char) :=
  (lit "Cash in".toList cs).bind cashGap

/-- Embedding of `\s*$` under `re.MULTILINE`: some prefix of the following
whitespace run ends at the end of the input or just before a newline. -/
def wsDollar : List Char → Bool
  | [] => true
  | c :: t => (isPySpace c && wsDollar t) || c = '\n'

/-- Position matcher for `([\d.]+)%\s*$` with `re.MULTILINE` (primary
performance pattern, applied to the ISA section text). -/
def matchPerfEolAt (cs : List Char) : Option (List Char) :=
  (matchPctCapture cs).bind fun pr => if wsDollar pr.2 then some pr.1 else none

/-- Search for `([\d.]+)%` at every position: the lazy `.*?` gap with
`re.DOTALL` that precedes it in `Time-weighted return.*?([\d.]+)%` is
equivalent to trying each start position left to right. -/
def pctSearch (cs : List Char) : Option (List Char) :=
  reSearch (fun cs2 => (matchPctCapture cs2).map fun a => a.1) cs

/-- Position matcher for `Time-weighted return.*?([\d.]+)%` with `re.DOTALL`
(fallback performance pattern). -/
def matchTwrAt (cs : List Char) : Option (List Char) :=
  (lit "Time-weighted return".toList cs).bind pctSearch

/-- Search for `[\d,]+\.\d{2}` at every position: the lazy `.*?` gap with
`re.DOTALL` preceding an amount capture is equivalent to trying each start
position left to right. -/
def amtSearch (cs : List Char) : Option (List Char) :=
  reSearch (fun cs2 => (matchAmount cs2).map fun a => a.1) cs

/-- Position matcher for `Total.*?Change.*?([\d,]+\.\d{2})` with `re.DOTALL`
(primary return-amount pattern). -/
def matchTotalChangeAt (cs : List Char) : Option (List Char) :=
  (lit "Total".toList cs).bind
    (reSearch fun cs2 => (lit "Change".toList cs2).bind amtSearch)

/-- Position matcher for `Change \(£\).*?([\d,]+\.\d{2})` with `re.DOTALL`
(fallback return-amount pattern). -/
def matchChangeGBPAt (cs : List Char) : Option (List Char) :=
  (lit "Change (£)".toList cs).bind amtSearch

/-- Position matcher for one title alternative of the Morningstar client-name
regex `PREPARED FOR\s+((?:Ms\.|Mr\.|Mrs\.)\s+[A-Z][a-z]+(?:\s+[A-Z][a-z]+)*)`;
returns the part of group 1 starting at the title (zero or more further
words). -/
def msTitleNameAt (title : List Char) (cs : List Char) : Option (List Char) :=
  match lit title cs with
  | none => none
  | some r1 =>
    match spaces1 r1 with
    | none => none
    | some sp =>
      match matchWord sp.2 with
      | none => none
      | some w1 =>
        let m := matchMoreWords w1.2
        some (title ++ sp.1 ++ w1.1 ++ m.1)

/-- Position matcher for the full Morningstar client-name regex; the
alternation tries `Ms.`, `Mr.`, `Mrs.` in pattern order and group 1 is
returned. -/
def matchMsClientAt (cs : List Char) : Option (List Char) :=
  (lit "PREPARED FOR".toList cs).bind fun r =>
  (spaces1 r).bind fun sp =>
  msTitleNameAt "Ms.".toList sp.2 <|> msTitleNameAt "Mr.".toList sp.2 <|>
    msTitleNameAt "Mrs.".toList sp.2

/-- Position matcher for
`Investment held:\s*KIND.*?(?=Investment held:|$)` with `re.DOTALL`; returns
group 0 (the wrapper span for the given kind). -/
def matchInvHeldAt (kind : List Char) (cs : List Char) : Option (List Char) :=
  (lit "Investment held:".toList cs).bind fun r =>
  (lit kind (takeRun isPySpace r).2).bind fun r2 =>
  some ("Investment held:".toList ++ (takeRun isPySpace r).1 ++ kind ++
    takeUntilBoundary ["Investment held:".toList] r2)

/-- Position matcher for `LABEL\s*£([\d,]+\.\d{2})`, the common shape of the
Morningstar Portfolio Valuation, Total In/Out and Total Return patterns. -/
def matchLabelPoundAt (label : List Char) (cs : List Char) : Option (List Char) :=
  (lit label cs).bind fun r => poundAmountAt (spaces0 r)

/-- Position matcher for `Portfolio % Returns\s*([\d.]+)%` (the Morningstar
performance pattern). -/
def matchMsPerfAt (cs : List Char) : Option (List Char) :=
  (lit "Portfolio % Returns".toList cs).bind fun r =>
  (matchPctCapture (spaces0 r)).map fun a => a.1

/-- Account dictionary built by both extractors.  In the source each account
is a Python dict; the AJ Bell dicts carry an `account_number` key (whose
value may be `None`) while the Morningstar dicts have no such key, so the
field is an `Option (Option _)`: `none` means the key is absent, `some none`
means the key is present with value `None`. -/
structure AccountRecord where
  type : String
  provider : String
  account_number : Option (Option (List Char))
  value : ℚ
  contributions : ℚ
  «return» : ℚ
  performance : ℚ
deriving DecidableEq

/-- Top-level result dictionary.  `client_name` is `none` when the key is
absent (fallback record) and `some none` when present with value `None`;
`performance` is `none` when the key is absent (fallback record), `some none`
when it is the empty dict, and `some (some q)` when it holds `oneYearReturn`;
`error` is `none` when the key is absent. -/
structure NormalizedRecord where
  provider : String
  client_name : Option (Option (List Char))
  accounts : List AccountRecord
  total_value : ℚ
  performance : Option (Option ℚ)
  error : Option String
deriving DecidableEq

/-- Embedding of the value step of `extract_aj_bell`: prefer the holdings
Total row searched over the whole text, fall back to the summary-line pattern
inside the ISA section, default 0. -/
def ajValue (text isa_text : List Char) : Option ℚ :=
  match reSearch matchHoldingsAt text with
  | some cap => pyFloat (stripCommas cap)
  | none =>
    match reSearch matchIsaValueAt isa_text with
    | some cap => pyFloat (stripCommas cap)
    | none => some 0

/-- Embedding of the contributions step of `extract_aj_bell`: the Cash in
pattern searched over the whole text, default 0. -/
def ajContrib (text : List Char) : Option ℚ :=
  match reSearch matchCashInAt text with
  | some cap => pyFloat (stripCommas cap)
  | none => some 0

/-- Embedding of the performance step of `extract_aj_bell`: prefer a
line-final percentage inside the ISA section, fall back to the Time-weighted
return pattern over the whole text, default 0. -/
def ajPerf (text isa_text : List Char) : Option ℚ :=
  match reSearch matchPerfEolAt isa_text with
  | some cap => pyFloat cap
  | none =>
    match reSearch matchTwrAt text with
    | some cap => pyFloat cap
    | none => some 0

/-- Embedding of the return-amount step of `extract_aj_bell`: prefer the
Total-Change pattern, fall back to the `Change (£)` pattern, both over the
whole text, default 0. -/
def ajReturn (text : List Char) : Option ℚ :=
  match reSearch matchTotalChangeAt text with
  | some cap => pyFloat (stripCommas cap)
  | none =>
    match reSearch matchChangeGBPAt text with
    | some cap => pyFloat (stripCommas cap)
    | none => some 0

/-- Embedding of `extract_aj_bell`.  The result is `none` when the Python
function would raise (a `float` call failing), otherwise `some` of the
returned record.  The SIPP section search of the source is bound and then
ignored, exactly as the source does. -/
def extract_aj_bell (text : List Char) : Option NormalizedRecord :=
  let client_name := (reSearch matchClientAt text).map pyStrip
  let account_number := reSearch matchSCCAt text
  let _sipp_section := reSearch matchSippSectionAt text
  match reSearch matchIsaSectionAt text with
  | some isa_text =>
    match ajValue text isa_text, ajContrib text, ajPerf text isa_text,
        ajReturn text with
    | some value, some contributions, some performance, some return_amount =>
      let account : AccountRecord :=
        { type := "ISA", provider := "AJ Bell",
          account_number := some account_number, value := value,
          contributions := contributions, «return» := return_amount,
          performance := performance }
      some { provider := "AJ Bell", client_name := some client_name,
             accounts := [account], total_value := qadd 0 value,
             performance := some (some performance), error := none }
    | _, _, _, _ => none
  | none =>
    some { provider := "AJ Bell", client_name := some client_name,
           accounts := [], total_value := 0, performance := some none,
           error := none }

/-- Embedding of the contributions step of one Morningstar wrapper span:
Total In/Out, default 0. -/
def msContrib (span : List Char) : Option ℚ :=
  match reSearch (matchLabelPoundAt "Total In/Out".toList) span with
  | some cap => pyFloat (stripCommas cap)
  | none => some 0

/-- Embedding of the return step of one Morningstar wrapper span: Total
Return, default 0. -/
def msReturn (span : List Char) : Option ℚ :=
  match reSearch (matchLabelPoundAt "Total Return".toList) span with
  | some cap => pyFloat (stripCommas cap)
  | none => some 0

/-- Embedding of the performance step of one Morningstar wrapper span:
Portfolio % Returns, default 0. -/
def msPerf (span : List Char) : Option ℚ :=
  match reSearch matchMsPerfAt span with
  | some cap => pyFloat cap
  | none => some 0

/-- Embedding of one Morningstar wrapper block (`kind` is `ISA` or `SIPP`):
isolate the span, and only if the Portfolio Valuation pattern matches build
the account dict.  Outer `none` marks a raised exception, inner `none` means
no account is appended for this kind. -/
def ms_wrapper (kind : List Char) (kindName : String) (text : List Char) :
    Option (Option AccountRecord) :=
  match reSearch (matchInvHeldAt kind) text with
  | none => some none
  | some span =>
    match reSearch (matchLabelPoundAt "Portfolio Valuation".toList) span with
    | none => some none
    | some vcap =>
      match pyFloat (stripCommas vcap), msContrib span, msReturn span,
          msPerf span with
      | some v, some ci, some ri, some p =>
        some (some { type := kindName, provider := "Morningstar",
                     account_number := none, value := v, contributions := ci,
                     «return» := ri, performance := p })
      | _, _, _, _ => none

/-- Kernel-evaluable embedding of the Python builtin `sum` over rationals
(left fold starting at 0); proven equal to `List.sum` in `qsum_eq_sum`. -/
def qsum (l : List ℚ) : ℚ := l.foldl qadd 0

/-- Embedding of `extract_morningstar`.  The result is `none` when the Python
function would raise. -/
def extract_morningstar (text : List Char) : Option NormalizedRecord :=
  let client_name := (reSearch matchMsClientAt text).map pyStrip
  match ms_wrapper "ISA".toList "ISA" text, ms_wrapper "SIPP".toList "SIPP" text with
  | some isaAcc, some sippAcc =>
    let accounts := isaAcc.toList ++ sippAcc.toList
    let tv1 : ℚ := match isaAcc with | some a => qadd 0 a.value | none => 0
    let total_value : ℚ :=
      match sippAcc with | some a => qadd tv1 a.value | none => tv1
    let performance : Option (Option ℚ) :=
      match accounts with
      | [] => some none
      | _ => some (some (qdivNat (qsum (accounts.map fun a => a.performance))
          accounts.length))
    some { provider := "Morningstar", client_name := some client_name,
           accounts := accounts, total_value := total_value,
           performance := performance, error := none }
  | _, _ => none

/-- Embedding of `detect_provider`. -/
def detect_provider (text : List Char) : String :=
  let text_lower := text.map Char.toLower
  if containsSub "aj bell".toList text_lower ||
      containsSub "ajbell".toList text_lower then "AJ_BELL"
  else if containsSub "morningstar".toList text_lower then "MORNINGSTAR"
  else if containsSub "cashflow".toList text_lower ||
      containsSub "574611".toList text_lower then "CASHFLOW"
  else "UNKNOWN"

/-- Record produced by `main` when no extractor matches the detected label. -/
def unknownRecord : NormalizedRecord :=
  { provider := "Unknown", client_name := none, accounts := [],
    total_value := 0, performance := none,
    error := some "Provider not recognized" }

/-- Embedding of the dispatch in `main`: detect the provider, run the
matching extractor, or fall back to the fixed unrecognized record. -/
def main_dispatch (text : List Char) : Option NormalizedRecord :=
  if detect_provider text = "AJ_BELL" then extract_aj_bell text
  else if detect_provider text = "MORNINGSTAR" then extract_morningstar text
  else some unknownRecord

/-- Sample Morningstar text with one ISA wrapper span. -/
def msOneText : List Char :=
  "morningstar Investment held: ISA Portfolio Valuation £10,000.00".toList

/-- Account the embedding extracts from `msOneText`. -/
def msOneAccount : AccountRecord :=
  { type := "ISA", provider := "Morningstar", account_number := none,
    value := 10000, contributions := 0, «return» := 0, performance := 0 }

/-- Record the embedding extracts from `msOneText`. -/
def msOneRecord : NormalizedRecord :=
  { provider := "Morningstar", client_name := some none,
    accounts := [msOneAccount], total_value := 10000,
    performance := some (some 0), error := none }

/-- Portfolio Valuation capture inside one wrapper span, used to state when a
Morningstar account is appended. -/
def msWrapperVal (kind text : List Char) : Option (List Char) :=
  (reSearch (matchInvHeldAt kind) text).bind
    (reSearch (matchLabelPoundAt "Portfolio Valuation".toList))

/-- Sample AJ Bell text with a holdings Total row and a Holdings boundary. -/
def ajHoldText : List Char :=
  "aj bell ISA - Performance summary Total - 1,234.56 - 2,345.67 ISA - Holdings".toList

/-- Account the embedding extracts from `ajHoldText`. -/
def ajHoldAccount : AccountRecord :=
  { type := "ISA", provider := "AJ Bell", account_number := some none,
    value := mkRat 234567 100, contributions := 0, «return» := 0,
    performance := 0 }

/-- Record the embedding extracts from `ajHoldText`. -/
def ajHoldRecord : NormalizedRecord :=
  { provider := "AJ Bell", client_name := some none,
    accounts := [ajHoldAccount], total_value := mkRat 234567 100,
    performance := some (some 0), error := none }

/-- Sample AJ Bell text whose Cash in amount sits on the same line. -/
def ajCashText : List Char :=
  "aj bell ISA - Performance summary Cash in £5.00".toList

/-- Account the embedding extracts from `ajCashText`. -/
def ajCashAccount : AccountRecord :=
  { type := "ISA", provider := "AJ Bell", account_number := some none,
    value := 0, contributions := 5, «return» := 0, performance := 0 }

/-- Record the embedding extracts from `ajCashText`. -/
def ajCashRecord : NormalizedRecord :=
  { provider := "AJ Bell", client_name := some none,
    accounts := [ajCashAccount], total_value := 0,
    performance := some (some 0), error := none }

/-- Capture handed to the only unguarded `float` call of `extract_aj_bell`:
the performance percentage (primary pattern inside the ISA section, else the
Time-weighted return fallback), present only when the ISA section exists. -/
def ajPerfCapture (text : List Char) : Option (List Char) :=
  match reSearch matchIsaSectionAt text with
  | some isa_text =>
    (match reSearch matchPerfEolAt isa_text with
     | some cap => some cap
     | none => reSearch matchTwrAt text)
  | none => none

/-- Capture handed to the percentage `float` call of one Morningstar wrapper
span. -/
def msPerfCapture (kind text : List Char) : Option (List Char) :=
  (reSearch (matchInvHeldAt kind) text).bind (reSearch matchMsPerfAt)

/-- Input on which `extract_aj_bell` raises `ValueError`: the line-final
percentage capture is `1.2.3`, which `float` cannot parse. -/
def ajFloatCrashText : List Char :=
  "aj bell\nISA - Performance summary\n1.2.3%".toList

/-- Sample Morningstar text with two wrapper spans and both performance
percentages present. -/
def msTwoText : List Char :=
  ("morningstar Investment held: ISA Portfolio Valuation £10,000.00 " ++
   "Portfolio % Returns 4.0% Investment held: SIPP " ++
   "Portfolio Valuation £5,000.00 Portfolio % Returns 6.0%").toList

/-- ISA account the embedding extracts from `msTwoText`. -/
def msTwoIsaAccount : AccountRecord :=
  { type := "ISA", provider := "Morningstar", account_number := none,
    value := 10000, contributions := 0, «return» := 0, performance := 4 }

/-- SIPP account the embedding extracts from `msTwoText`. -/
def msTwoSippAccount : AccountRecord :=
  { type := "SIPP", provider := "Morningstar", account_number := none,
    value := 5000, contributions := 0, «return» := 0, performance := 6 }

/-- Record the embedding extracts from `msTwoText`. -/
def msTwoRecord : NormalizedRecord :=
  { provider := "Morningstar", client_name := some none,
    accounts := [msTwoIsaAccount, msTwoSippAccount], total_value := 15000,
    performance := some (some 5), error := none }

/-- Specification-side position matcher for the contributions rule, written
from the amended claim wording: a `Cash in` occurrence whose amount is a
pound-prefixed amount found on the remainder of the same line (leftmost
amount first). -/
def specCashInCapAt (cs : List Char) : Option (List Char) :=
  (lit "Cash in".toList cs).bind fun rest =>
    reSearch poundAmountAt (rest.takeWhile (fun c => c ≠ '\n'))

/-- Specification-side contributions value, written from the amended claim
wording: the leftmost `Cash in` occurrence followed on its own line by a
pound-prefixed amount gives the parsed amount; otherwise 0. -/
def specContrib (text : List Char) : Option ℚ :=
  match reSearch specCashInCapAt text with
  | some cap => pyFloat (stripCommas cap)
  | none => some 0

/-- Claim-side contributions value, modelled from the original claim wording:
the first currency-prefixed amount that eventually follows (anywhere, also on
later lines) the first `Cash in` occurrence of the full text. -/
def cashInEventualAmount (text : List Char) : Option ℚ :=
  (reSearch (lit "Cash in".toList) text).bind fun rest =>
  (reSearch poundAmountAt rest).bind fun cap => pyFloat (stripCommas cap)

/-- Input whose first (and only) Cash in occurrence has its amount on the
next line: the extractor leaves contributions at 0 although an amount
eventually follows. -/
def ajCashNlText : List Char :=
  "aj bell\nISA - Performance summary\nCash in\n£12.34".toList

/-- Account the embedding extracts from `ajCashNlText`. -/
def ajCashNlAccount : AccountRecord :=
  { type := "ISA", provider := "AJ Bell", account_number := some none,
    value := 0, contributions := 0, «return» := 0, performance := 0 }

/-- Record the embedding extracts from `ajCashNlText`. -/
def ajCashNlRecord : NormalizedRecord :=
  { provider := "AJ Bell", client_name := some none,
    accounts := [ajCashNlAccount], total_value := 0,
    performance := some (some 0), error := none }

/-- Sample Morningstar text whose SIPP span has no Portfolio Valuation even
though other field patterns match inside it. -/
def msGateText : List Char :=
  ("morningstar Investment held: ISA Portfolio Valuation £1.00 " ++
   "Investment held: SIPP Total Return £2.00 Portfolio % Returns 3.0%").toList

/-- ISA account the embedding extracts from `msGateText`. -/
def msGateAccount : AccountRecord :=
  { type := "ISA", provider := "Morningstar", account_number := none,
    value := 1, contributions := 0, «return» := 0, performance := 0 }

/-- Record the embedding extracts from `msGateText`: no SIPP account. -/
def msGateRecord : NormalizedRecord :=
  { provider := "Morningstar", client_name := some none,
    accounts := [msGateAccount], total_value := 1,
    performance := some (some 0), error := none }

/-- Sample AJ Bell text with no ISA - Performance summary heading. -/
def ajEmptyText : List Char := "aj bell report".toList

/-- Record the embedding extracts from `ajEmptyText`. -/
def ajEmptyRecord : NormalizedRecord :=
  { provider := "AJ Bell", client_name := some none, accounts := [],
    total_value := 0, performance := some none, error := none }

theorem qadd_eq_add (a b : ℚ) : qadd a b = a + b := by
  rw [qadd, Rat.add_def, Rat.normalize_eq_mkRat]

theorem qdivNat_eq_div (a : ℚ) (n : ℕ) : qdivNat a n = a / n := by
  rw [qdivNat, Rat.mkRat_eq_divInt]
  push_cast [Rat.divInt_eq_div]
  rw [div_mul_eq_div_div, Rat.num_div_den]

theorem foldl_qadd_eq (l : List ℚ) (a : ℚ) : l.foldl qadd a = a + l.sum := by
  induction l generalizing a with
  | nil => simp
  | cons x t ih =>
    simp only [List.foldl_cons, List.sum_cons, ih, qadd_eq_add]
    ring

theorem qsum_eq_sum (l : List ℚ) : qsum l = l.sum := by
  rw [qsum, foldl_qadd_eq, zero_add]

theorem reSearch_eq_some {α : Type} (m : List Char → Option α) (cs : List Char)
    (a : α) (h : reSearch m cs = some a) : ∃ s, s <:+ cs ∧ m s = some a := by
  induction cs with
  | nil => exact ⟨[], List.suffix_refl [], h⟩
  | cons c t ih =>
    rw [reSearch] at h
    match hm : m (c :: t) with
    | some b => rw [hm] at h; exact ⟨c :: t, List.suffix_refl _, hm.trans h⟩
    | none =>
      rw [hm] at h
      obtain ⟨s, hs, hms⟩ := ih h
      exact ⟨s, hs.trans (List.suffix_cons c t), hms⟩

theorem reSearch_isSome {α : Type} (m : List Char → Option α) (cs s : List Char)
    (hs : s <:+ cs) (h : (m s).isSome) : (reSearch m cs).isSome := by
  induction cs with
  | nil =>
    rw [List.suffix_nil] at hs
    subst hs
    simpa [reSearch] using h
  | cons c t ih =>
    rw [reSearch]
    match hm : m (c :: t) with
    | some b => simp
    | none =>
      rcases List.suffix_cons_iff.mp hs with h1 | h2
      · rw [h1] at h
        rw [hm] at h
        simp at h
      · exact ih h2

theorem reSearch_eq_none {α : Type} (m : List Char → Option α) (cs s : List Char)
    (h : reSearch m cs = none) (hs : s <:+ cs) : m s = none := by
  match hm : m s with
  | none => rfl
  | some b =>
    have h2 := reSearch_isSome m cs s hs (by rw [hm]; rfl)
    rw [h] at h2
    simp at h2

theorem containsSub_iff (pat hay : List Char) :
    containsSub pat hay = true ↔ pat <:+: hay := by
  induction hay with
  | nil =>
    simp [containsSub, List.isPrefixOf_iff_prefix, List.infix_nil, List.prefix_nil]
  | cons c t ih =>
    rw [containsSub, List.infix_cons_iff, Bool.or_eq_true, ih,
      List.isPrefixOf_iff_prefix]

theorem takeRun_fst_all (p : Char → Bool) (l : List Char) :
    ∀ c ∈ (takeRun p l).1, p c := by
  induction l with
  | nil => simp [takeRun]
  | cons c t ih =>
    by_cases h : p c
    · simp only [takeRun, h, if_true]
      intro a ha
      rcases List.mem_cons.mp ha with h1 | h1
      · rw [h1]; exact h
      · exact ih a h1
    · simp [takeRun, h]

theorem lit_prefix (pat cs r : List Char) (h : lit pat cs = some r) :
    pat <+: cs := by
  rw [lit] at h
  split at h
  · exact List.isPrefixOf_iff_prefix.mp (by assumption)
  · exact absurd h (by simp)

theorem lit_isSome (pat cs : List Char) (h : pat <+: cs) :
    (lit pat cs).isSome := by
  rw [lit]
  simp [List.isPrefixOf_iff_prefix.mpr h]

theorem matchIsaSectionAt_isSome_iff (cs : List Char) :
    (matchIsaSectionAt cs).isSome ↔ "ISA - Performance summary".toList <+: cs := by
  rw [matchIsaSectionAt]
  constructor
  · intro h
    match hl : lit "ISA - Performance summary".toList cs with
    | none => rw [hl] at h; simp at h
    | some r => exact lit_prefix _ _ _ hl
  · intro h
    have h2 := lit_isSome _ _ h
    match hl : lit "ISA - Performance summary".toList cs with
    | none => rw [hl] at h2; simp at h2
    | some r => simp

theorem isaSearch_isSome_iff (text : List Char) :
    (reSearch matchIsaSectionAt text).isSome ↔
      containsSub "ISA - Performance summary".toList text = true := by
  rw [containsSub_iff, List.infix_iff_prefix_suffix]
  constructor
  · intro h
    obtain ⟨a, ha⟩ := Option.isSome_iff_exists.mp h
    obtain ⟨s, hs, hms⟩ := reSearch_eq_some _ _ _ ha
    exact ⟨s, (matchIsaSectionAt_isSome_iff s).mp (by rw [hms]; rfl), hs⟩
  · rintro ⟨t, hpre, hsuf⟩
    exact reSearch_isSome _ _ _ hsuf ((matchIsaSectionAt_isSome_iff t).mpr hpre)

theorem pyFloat_digits_dot (s : List Char) (d1 d2 : Char)
    (hs : ∀ c ∈ s, c.isDigit) (h1 : d1.isDigit) (h2 : d2.isDigit) :
    (pyFloat (s ++ '.' :: [d1, d2])).isSome := by
  rw [pyFloat]
  have hall : (s ++ '.' :: [d1, d2]).all (fun c => c.isDigit || c = '.') = true := by
    rw [List.all_eq_true]
    intro c hc
    rcases List.mem_append.mp hc with h | h
    · simp [hs c h]
    · rcases List.mem_cons.mp h with h | h
      · simp [h]
      · rcases List.mem_cons.mp h with h | h
        · simp [h, h1]
        · simp [List.mem_singleton.mp h, h2]
  have hany : (s ++ '.' :: [d1, d2]).any (fun c => c.isDigit) = true := by
    rw [List.any_eq_true]
    exact ⟨d1, by simp, h1⟩
  have hz : s.count '.' = 0 := by
    rw [List.count_eq_zero]
    intro hmem
    have hdig := hs _ hmem
    exact absurd hdig (by decide)
  have hd1 : ('.' : Char) ≠ d1 := by
    intro hc; rw [← hc] at h1; exact absurd h1 (by decide)
  have hd2 : ('.' : Char) ≠ d2 := by
    intro hc; rw [← hc] at h2; exact absurd h2 (by decide)
  have hcd : List.count '.' [d1, d2] = 0 := by
    simp [List.count_cons, hd1.symm, hd2.symm]
  rw [hall, hany]
  simp [List.count_append, hz, hcd]

theorem stripCommas_amount (run : List Char) (d1 d2 : Char)
    (hd1 : d1.isDigit) (hd2 : d2.isDigit) :
    stripCommas (run ++ '.' :: [d1, d2]) =
      run.filter (fun c => c ≠ ',') ++ '.' :: [d1, d2] := by
  have h1 : ¬ d1 = ',' := by intro hc; rw [hc] at hd1; exact absurd hd1 (by decide)
  have h2 : ¬ d2 = ',' := by intro hc; rw [hc] at hd2; exact absurd hd2 (by decide)
  rw [stripCommas, List.filter_append]
  congr 1
  simp [List.filter, h1, h2]

theorem matchAmount_parses (cs : List Char) (pr : List Char × List Char)
    (h : matchAmount cs = some pr) : (pyFloat (stripCommas pr.1)).isSome := by
  rw [matchAmount] at h
  split at h
  · exact absurd h (by simp)
  · split at h
    case _ d1 d2 rest heq =>
      split at h
      case isTrue hd =>
        simp only [Bool.and_eq_true] at hd
        cases h
        rw [stripCommas_amount _ _ _ hd.1 hd.2]
        refine pyFloat_digits_dot _ _ _ ?_ hd.1 hd.2
        intro c hc
        rw [List.mem_filter] at hc
        have hcl := takeRun_fst_all (fun c => c.isDigit || c = ',') cs c hc.1
        simp only [Bool.or_eq_true] at hcl
        rcases hcl with h1 | h1
        · exact h1
        · exact absurd (by simpa using h1) (by simpa using hc.2)
      case isFalse hd => exact absurd h (by simp)
    case _ => exact absurd h (by simp)

/-- Claim C3: whenever the classifier returns UNKNOWN or CASHFLOW, the
program produces exactly the fixed unrecognized record, whose performance
key is absent, and this path never raises. -/
theorem unrecognized_path (text : List Char)
    (h : detect_provider text = "UNKNOWN" ∨ detect_provider text = "CASHFLOW") :
    main_dispatch text = some unknownRecord ∧ unknownRecord.provider = "Unknown" ∧
      unknownRecord.error = some "Provider not recognized" ∧
      unknownRecord.accounts = [] ∧ unknownRecord.total_value = 0 ∧
      unknownRecord.performance = none ∧ unknownRecord.client_name = none := by
  refine ⟨?_, rfl, rfl, rfl, rfl, rfl, rfl⟩
  rw [main_dispatch]
  rcases h with h | h <;> rw [h] <;>
    rw [if_neg (by decide), if_neg (by decide)]

/-- Claim C4: the classifier applies case-insensitive substring rules in
order with first match winning (aj bell/ajbell, then morningstar, then
cashflow/574611, else UNKNOWN); text containing both aj bell and
morningstar classifies as AJ_BELL, and a label is always returned. -/
theorem detect_provider_rules (text : List Char) :
    (detect_provider text = "AJ_BELL" ↔
      ("aj bell".toList <:+: text.map Char.toLower ∨
        "ajbell".toList <:+: text.map Char.toLower)) ∧
    (detect_provider text = "MORNINGSTAR" ↔
      (¬ ("aj bell".toList <:+: text.map Char.toLower ∨
            "ajbell".toList <:+: text.map Char.toLower) ∧
        "morningstar".toList <:+: text.map Char.toLower)) ∧
    (detect_provider text = "CASHFLOW" ↔
      (¬ ("aj bell".toList <:+: text.map Char.toLower ∨
            "ajbell".toList <:+: text.map Char.toLower) ∧
        ¬ "morningstar".toList <:+: text.map Char.toLower ∧
        ("cashflow".toList <:+: text.map Char.toLower ∨
          "574611".toList <:+: text.map Char.toLower))) ∧
    (detect_provider text = "UNKNOWN" ↔
      (¬ ("aj bell".toList <:+: text.map Char.toLower ∨
            "ajbell".toList <:+: text.map Char.toLower) ∧
        ¬ "morningstar".toList <:+: text.map Char.toLower ∧
        ¬ ("cashflow".toList <:+: text.map Char.toLower ∨
            "574611".toList <:+: text.map Char.toLower))) ∧
    ("aj bell".toList <:+: text.map Char.toLower →
      "morningstar".toList <:+: text.map Char.toLower →
      detect_provider text = "AJ_BELL") ∧
    (detect_provider text = "AJ_BELL" ∨ detect_provider text = "MORNINGSTAR" ∨
      detect_provider text = "CASHFLOW" ∨ detect_provider text = "UNKNOWN") := by
  simp only [← containsSub_iff]
  rw [detect_provider]
  cases h1 : containsSub "aj bell".toList (text.map Char.toLower) <;>
  cases h2 : containsSub "ajbell".toList (text.map Char.toLower) <;>
  cases h3 : containsSub "morningstar".toList (text.map Char.toLower) <;>
  cases h4 : containsSub "cashflow".toList (text.map Char.toLower) <;>
  cases h5 : containsSub "574611".toList (text.map Char.toLower) <;>
    simp

theorem aj_total (text : List Char) (r : NormalizedRecord)
    (h : extract_aj_bell text = some r) :
    r.total_value = (r.accounts.map AccountRecord.value).sum := by
  simp only [extract_aj_bell] at h
  split at h
  · split at h
    · cases h
      simp [qadd_eq_add]
    · exact absurd h (by simp)
  · cases h
    simp

theorem ms_total (text : List Char) (r : NormalizedRecord)
    (h : extract_morningstar text = some r) :
    r.total_value = (r.accounts.map AccountRecord.value).sum := by
  simp only [extract_morningstar] at h
  split at h
  case _ isaAcc sippAcc h1 h2 =>
    cases h
    rcases isaAcc with _ | a <;> rcases sippAcc with _ | b
    · simp
    · simp [qadd_eq_add]
    · simp [qadd_eq_add]
    · simp [qadd_eq_add, add_assoc]
  case _ => exact absurd h (by simp)

/-- Concrete evaluation of the extractor on the sample text above. -/
theorem msOneRecord_eval : extract_morningstar msOneText = some msOneRecord := by decide

/-- Claim C2: for every NormalizedRecord produced by any extractor or the
fallback path, total_value equals the exact sum of the value fields of the
accounts list (0 when the list is empty). -/
theorem total_value_claim (text : List Char) (r : NormalizedRecord) :
    (extract_aj_bell text = some r →
      r.total_value = (r.accounts.map AccountRecord.value).sum) ∧
    (extract_morningstar text = some r →
      r.total_value = (r.accounts.map AccountRecord.value).sum) ∧
    (main_dispatch text = some r →
      r.total_value = (r.accounts.map AccountRecord.value).sum) := by
  refine ⟨aj_total text r, ms_total text r, ?_⟩
  intro h
  rw [main_dispatch] at h
  split at h
  · exact aj_total text r h
  · split at h
    · exact ms_total text r h
    · cases h
      simp [unknownRecord]

/-- Claim C2 witness: the sum invariant at a concrete Morningstar record. -/
theorem total_value_claim_witness :
    msOneRecord.total_value = (msOneRecord.accounts.map AccountRecord.value).sum :=
  (total_value_claim msOneText msOneRecord).2.1 (by decide)

/-- Claim C10: without the ISA - Performance summary heading the AJ Bell
record has no accounts and total 0, and no account other than the ISA one
is ever produced (the detected SIPP section contributes nothing). -/
theorem aj_no_heading_claim (text : List Char) (r : NormalizedRecord)
    (h : extract_aj_bell text = some r) :
    (containsSub "ISA - Performance summary".toList text = false →
      r.accounts = [] ∧ r.total_value = 0) ∧
    (∀ a ∈ r.accounts, a.type = "ISA") := by
  simp only [extract_aj_bell] at h
  split at h
  case _ isa_text heq =>
    split at h
    · cases h
      constructor
      · intro hc
        have hsome : (reSearch matchIsaSectionAt text).isSome := by rw [heq]; rfl
        rw [isaSearch_isSome_iff, hc] at hsome
        exact absurd hsome (by simp)
      · intro a ha
        rw [List.mem_singleton] at ha
        rw [ha]
    · exact absurd h (by simp)
  case _ heq =>
    cases h
    exact ⟨fun _ => ⟨rfl, rfl⟩, by simp⟩

theorem ms_wrapper_shape (kind : List Char) (name : String) (text : List Char)
    (acc : Option AccountRecord) (h : ms_wrapper kind name text = some acc) :
    (acc.isSome ↔ (msWrapperVal kind text).isSome) ∧
    (∀ a, acc = some a → a.type = name ∧ a.account_number = none ∧
      a.provider = "Morningstar") := by
  rw [ms_wrapper] at h
  rw [msWrapperVal]
  split at h
  case _ hspan =>
    cases h
    rw [hspan]
    simp
  case _ span hspan =>
    rw [hspan]
    simp only [Option.some_bind]
    split at h
    case _ hval =>
      cases h
      rw [hval]
      simp
    case _ vcap hval =>
      split at h
      case _ hv hc hr hp =>
        cases h
        rw [hval]
        simp
      case _ => exact absurd h (by simp)

/-- Claim C9: a Morningstar account of a wrapper kind is appended exactly
when the Portfolio Valuation pattern matched inside that kind's span; a
valuation miss suppresses the account even if other patterns matched. -/
theorem ms_valuation_gate (text : List Char) (r : NormalizedRecord)
    (h : extract_morningstar text = some r) :
    ((∃ a ∈ r.accounts, a.type = "ISA") ↔
      (msWrapperVal "ISA".toList text).isSome) ∧
    ((∃ a ∈ r.accounts, a.type = "SIPP") ↔
      (msWrapperVal "SIPP".toList text).isSome) := by
  simp only [extract_morningstar] at h
  split at h
  case _ isaAcc sippAcc h1 h2 =>
    cases h
    obtain ⟨hio, hik⟩ := ms_wrapper_shape _ _ _ _ h1
    obtain ⟨hso, hsk⟩ := ms_wrapper_shape _ _ _ _ h2
    constructor
    · rw [← hio]
      simp only [List.mem_append, Option.mem_toList, Option.mem_def]
      constructor
      · rintro ⟨a, ha | ha, hat⟩
        · rw [ha]; rfl
        · have := (hsk a ha).1
          rw [this] at hat
          exact absurd hat (by decide)
      · intro hs
        obtain ⟨a, ha⟩ := Option.isSome_iff_exists.mp hs
        exact ⟨a, Or.inl ha, (hik a ha).1⟩
    · rw [← hso]
      simp only [List.mem_append, Option.mem_toList, Option.mem_def]
      constructor
      · rintro ⟨a, ha | ha, hat⟩
        · have := (hik a ha).1
          rw [this] at hat
          exact absurd hat (by decide)
        · rw [ha]; rfl
      · intro hs
        obtain ⟨a, ha⟩ := Option.isSome_iff_exists.mp hs
        exact ⟨a, Or.inr ha, (hsk a ha).1⟩
  case _ => exact absurd h (by simp)

/-- Claim C8: performance.oneYearReturn is present exactly when at least
one account was produced, and then equals the arithmetic mean of the
produced accounts performance values (stated multiplicatively: the mean q
satisfies q times the account count equals the performance sum). -/
theorem ms_mean_claim (text : List Char) (r : NormalizedRecord)
    (h : extract_morningstar text = some r) :
    ((∃ q, r.performance = some (some q)) ↔ r.accounts ≠ []) ∧
    (r.accounts = [] → r.performance = some none) ∧
    (r.accounts ≠ [] → ∃ q, r.performance = some (some q) ∧
      q * (r.accounts.length : ℚ) =
        (r.accounts.map (fun a => a.performance)).sum) := by
  simp only [extract_morningstar] at h
  split at h
  case _ isaAcc sippAcc h1 h2 =>
    cases h
    rcases isaAcc with _ | a <;> rcases sippAcc with _ | b
    · simp
    · simp [qdivNat_eq_div, qsum_eq_sum]
    · simp [qdivNat_eq_div, qsum_eq_sum]
    · simp only [Option.toList_some, Option.toList_none]
      refine ⟨by simp, by simp, fun _ => ?_⟩
      refine ⟨_, rfl, ?_⟩
      rw [qdivNat_eq_div, qsum_eq_sum]
      simp [div_mul_cancel₀]
  case _ => exact absurd h (by simp)

/-- Claim C7: with the ISA heading present and the holdings Total row
matching with second capture cap, the single produced ISA account has value
equal to the parsed comma-stripped capture, taking precedence over the
summary-line fallback. -/
theorem aj_holdings_value (text : List Char) (r : NormalizedRecord)
    (cap : List Char) (h : extract_aj_bell text = some r)
    (hheading : containsSub "ISA - Performance summary".toList text = true)
    (hrow : reSearch matchHoldingsAt text = some cap)
    (hbound : containsSub "ISA - Holdings".toList text = true) :
    ∃ a v, r.accounts = [a] ∧ pyFloat (stripCommas cap) = some v ∧
      a.value = v := by
  simp only [extract_aj_bell] at h
  split at h
  case _ isa_text heq =>
    split at h
    next v c p ra hv hc hp hra =>
      rw [ajValue, hrow] at hv
      cases h
      exact ⟨_, v, rfl, hv, rfl⟩
    next => exact absurd h (by simp)
  case _ heq =>
    have hsome := (isaSearch_isSome_iff text).mpr hheading
    rw [heq] at hsome
    exact absurd hsome (by simp)

/-- Concrete evaluation of the extractor on the sample text above. -/
theorem ajHoldRecord_eval : extract_aj_bell ajHoldText = some ajHoldRecord := by decide

/-- Claim C7 witness: the Total row value 2345.67 at a concrete input. -/
theorem aj_holdings_value_witness :
    ∃ a v, ajHoldRecord.accounts = [a] ∧
      pyFloat (stripCommas "2,345.67".toList) = some v ∧ a.value = v :=
  aj_holdings_value ajHoldText ajHoldRecord "2,345.67".toList (by decide)
    (by decide) (by decide) (by decide)

/-- Claim C5 (amended): every AJ Bell AccountRecord carries the
account_number key, null exactly when no SCC identifier matched, while
every Morningstar AccountRecord omits the key entirely; all other account
fields are always present by construction of the record types. -/
theorem account_number_fields (text : List Char) (r : NormalizedRecord) :
    (extract_aj_bell text = some r →
      ∀ a ∈ r.accounts, a.account_number = some (reSearch matchSCCAt text)) ∧
    (extract_morningstar text = some r →
      ∀ a ∈ r.accounts, a.account_number = none) := by
  constructor
  · intro h a ha
    simp only [extract_aj_bell] at h
    split at h
    · split at h
      · cases h
        rw [List.mem_singleton] at ha
        rw [ha]
      · exact absurd h (by simp)
    · cases h
      simp at ha
  · intro h a ha
    simp only [extract_morningstar] at h
    split at h
    case _ isaAcc sippAcc h1 h2 =>
      cases h
      simp only [List.mem_append, Option.mem_toList, Option.mem_def] at ha
      rcases ha with ha | ha
      · exact ((ms_wrapper_shape _ _ _ _ h1).2 a ha).2.1
      · exact ((ms_wrapper_shape _ _ _ _ h2).2 a ha).2.1
    case _ => exact absurd h (by simp)

/-- Concrete evaluation of the extractor on the sample text above. -/
theorem ajCashRecord_eval : extract_aj_bell ajCashText = some ajCashRecord := by decide

/-- Claim C5 witness: concrete accounts of both providers. -/
theorem account_number_fields_witness :
    ajCashAccount.account_number = some (reSearch matchSCCAt ajCashText) ∧
    msOneAccount.account_number = none :=
  ⟨(account_number_fields ajCashText ajCashRecord).1 (by decide) ajCashAccount
      (by decide),
   (account_number_fields msOneText msOneRecord).2 (by decide) msOneAccount
      (by decide)⟩

/-- Claim C5 counterexample: a produced Morningstar account has no
account_number key at all, not a null value. -/
theorem account_number_missing_cex :
    main_dispatch msOneText = some msOneRecord ∧
    msOneRecord.accounts.map (fun a => a.account_number) = [none] :=
  ⟨by decide, by decide⟩

theorem reSearch_parses (m : List Char → Option (List Char))
    (hm : ∀ s cap, m s = some cap → (pyFloat (stripCommas cap)).isSome)
    (cs cap : List Char) (h : reSearch m cs = some cap) :
    (pyFloat (stripCommas cap)).isSome := by
  obtain ⟨s, _, hms⟩ := reSearch_eq_some m cs cap h
  exact hm s cap hms

theorem poundAmountAt_parses (cs cap : List Char)
    (h : poundAmountAt cs = some cap) : (pyFloat (stripCommas cap)).isSome := by
  rw [poundAmountAt] at h
  split at h
  case _ r hl =>
    rw [Option.map_eq_some'] at h
    obtain ⟨pr, hpr, hc⟩ := h
    subst hc
    exact matchAmount_parses _ _ hpr
  case _ => exact absurd h (by simp)

theorem matchHoldingsAt_parses (cs cap : List Char)
    (h : matchHoldingsAt cs = some cap) : (pyFloat (stripCommas cap)).isSome := by
  simp only [matchHoldingsAt, Option.bind_eq_some, Option.map_eq_some'] at h
  obtain ⟨r1, _, s1, _, r2, _, s2, _, a1, _, s3, _, r3, _, s4, _, a2, ha2, hc⟩ := h
  subst hc
  exact matchAmount_parses _ _ ha2

theorem matchIsaValueAt_parses (cs cap : List Char)
    (h : matchIsaValueAt cs = some cap) : (pyFloat (stripCommas cap)).isSome := by
  simp only [matchIsaValueAt, Option.bind_eq_some] at h
  obtain ⟨r1, _, a, ha, s, _, h2⟩ := h
  split at h2
  · exact absurd h2 (by simp)
  · rw [Option.map_eq_some'] at h2
    obtain ⟨_, _, hc⟩ := h2
    subst hc
    exact matchAmount_parses _ _ ha

theorem cashGap_parses (cs cap : List Char) (h : cashGap cs = some cap) :
    (pyFloat (stripCommas cap)).isSome := by
  induction cs with
  | nil => simp [cashGap] at h
  | cons c t ih =>
    rw [cashGap] at h
    split at h
    case _ cap2 hm =>
      cases h
      exact poundAmountAt_parses _ _ hm
    case _ hm =>
      split at h
      · exact absurd h (by simp)
      · exact ih h

theorem matchCashInAt_parses (cs cap : List Char)
    (h : matchCashInAt cs = some cap) : (pyFloat (stripCommas cap)).isSome := by
  simp only [matchCashInAt, Option.bind_eq_some] at h
  obtain ⟨r, _, h2⟩ := h
  exact cashGap_parses _ _ h2

theorem amtSearch_parses (cs cap : List Char) (h : amtSearch cs = some cap) :
    (pyFloat (stripCommas cap)).isSome := by
  rw [amtSearch] at h
  refine reSearch_parses _ ?_ _ _ h
  intro s cap2 hs
  rw [Option.map_eq_some'] at hs
  obtain ⟨pr, hpr, hc⟩ := hs
  subst hc
  exact matchAmount_parses _ _ hpr

theorem matchTotalChangeAt_parses (cs cap : List Char)
    (h : matchTotalChangeAt cs = some cap) :
    (pyFloat (stripCommas cap)).isSome := by
  simp only [matchTotalChangeAt, Option.bind_eq_some] at h
  obtain ⟨r, _, h2⟩ := h
  refine reSearch_parses _ ?_ _ _ h2
  intro s cap2 hs
  simp only [Option.bind_eq_some] at hs
  obtain ⟨r2, _, hs2⟩ := hs
  exact amtSearch_parses _ _ hs2

theorem matchChangeGBPAt_parses (cs cap : List Char)
    (h : matchChangeGBPAt cs = some cap) :
    (pyFloat (stripCommas cap)).isSome := by
  simp only [matchChangeGBPAt, Option.bind_eq_some] at h
  obtain ⟨r, _, h2⟩ := h
  exact amtSearch_parses _ _ h2

theorem matchLabelPoundAt_parses (label : List Char) (cs cap : List Char)
    (h : matchLabelPoundAt label cs = some cap) :
    (pyFloat (stripCommas cap)).isSome := by
  simp only [matchLabelPoundAt, Option.bind_eq_some] at h
  obtain ⟨r, _, h2⟩ := h
  exact poundAmountAt_parses _ _ h2

theorem ajValue_isSome (text isa_text : List Char) :
    (ajValue text isa_text).isSome := by
  rw [ajValue]
  split
  case _ cap hcap => exact reSearch_parses _ matchHoldingsAt_parses _ _ hcap
  case _ =>
    split
    case _ cap hcap => exact reSearch_parses _ matchIsaValueAt_parses _ _ hcap
    case _ => rfl

theorem ajContrib_isSome (text : List Char) : (ajContrib text).isSome := by
  rw [ajContrib]
  split
  case _ cap hcap => exact reSearch_parses _ matchCashInAt_parses _ _ hcap
  case _ => rfl

theorem ajReturn_isSome (text : List Char) : (ajReturn text).isSome := by
  rw [ajReturn]
  split
  case _ cap hcap => exact reSearch_parses _ matchTotalChangeAt_parses _ _ hcap
  case _ =>
    split
    case _ cap hcap => exact reSearch_parses _ matchChangeGBPAt_parses _ _ hcap
    case _ => rfl

theorem msContrib_isSome (span : List Char) : (msContrib span).isSome := by
  rw [msContrib]
  split
  case _ cap hcap =>
    exact reSearch_parses _ (matchLabelPoundAt_parses _) _ _ hcap
  case _ => rfl

theorem msReturn_isSome (span : List Char) : (msReturn span).isSome := by
  rw [msReturn]
  split
  case _ cap hcap =>
    exact reSearch_parses _ (matchLabelPoundAt_parses _) _ _ hcap
  case _ => rfl

theorem ms_wrapper_isSome (kind : List Char) (name : String) (text : List Char)
    (hp : (msPerfCapture kind text).all (fun cap => (pyFloat cap).isSome) = true) :
    (ms_wrapper kind name text).isSome := by
  rw [ms_wrapper]
  split
  case _ => rfl
  case _ span hspan =>
    simp only [msPerfCapture, hspan, Option.some_bind] at hp
    split
    case _ => rfl
    case _ vcap hval =>
      obtain ⟨v, hv⟩ := Option.isSome_iff_exists.mp
        (reSearch_parses _ (matchLabelPoundAt_parses _) _ _ hval)
      obtain ⟨ci, hci⟩ := Option.isSome_iff_exists.mp (msContrib_isSome span)
      obtain ⟨ri, hri⟩ := Option.isSome_iff_exists.mp (msReturn_isSome span)
      have hperf : (msPerf span).isSome := by
        rw [msPerf]
        split
        case _ cap hcap =>
          rw [hcap] at hp
          simpa using hp
        case _ => rfl
      obtain ⟨p0, hp0⟩ := Option.isSome_iff_exists.mp hperf
      rw [hv, hci, hri, hp0]
      rfl

/-- Claim C1 (amended): extraction of a supported provider never raises
provided every captured percentage substring parses as a decimal; every
captured currency amount parses after comma stripping, and every field
pattern miss yields a default, so the percentage captures are the only
possible source of an exception. -/
theorem extraction_totality (text : List Char) :
    ((ajPerfCapture text).all (fun cap => (pyFloat cap).isSome) = true →
      (extract_aj_bell text).isSome) ∧
    ((msPerfCapture "ISA".toList text).all
        (fun cap => (pyFloat cap).isSome) = true →
      (msPerfCapture "SIPP".toList text).all
        (fun cap => (pyFloat cap).isSome) = true →
      (extract_morningstar text).isSome) := by
  constructor
  · intro hp
    simp only [extract_aj_bell]
    split
    case _ isa_text heq =>
      simp only [ajPerfCapture, heq] at hp
      obtain ⟨v, hv⟩ := Option.isSome_iff_exists.mp (ajValue_isSome text isa_text)
      obtain ⟨ci, hci⟩ := Option.isSome_iff_exists.mp (ajContrib_isSome text)
      obtain ⟨ra, hra⟩ := Option.isSome_iff_exists.mp (ajReturn_isSome text)
      have hperf : (ajPerf text isa_text).isSome := by
        rw [ajPerf]
        split
        case _ cap hcap =>
          rw [hcap] at hp
          simpa using hp
        case _ hnone =>
          rw [hnone] at hp
          split
          case _ cap hcap =>
            rw [hcap] at hp
            simpa using hp
          case _ => rfl
      obtain ⟨p0, hp0⟩ := Option.isSome_iff_exists.mp hperf
      rw [hv, hci, hp0, hra]
      rfl
    case _ => rfl
  · intro h1 h2
    rw [extract_morningstar]
    obtain ⟨ia, hia⟩ := Option.isSome_iff_exists.mp
      (ms_wrapper_isSome "ISA".toList "ISA" text h1)
    obtain ⟨sa, hsa⟩ := Option.isSome_iff_exists.mp
      (ms_wrapper_isSome "SIPP".toList "SIPP" text h2)
    rw [hia, hsa]
    rfl

/-- Claim C1 counterexample: an AJ Bell input whose line-final percentage
capture is 1.2.3, which fails decimal parsing, so the extraction raises
instead of returning a record. -/
theorem extraction_raises_cex :
    detect_provider ajFloatCrashText = "AJ_BELL" ∧
    extract_aj_bell ajFloatCrashText = none ∧
    main_dispatch ajFloatCrashText = none :=
  ⟨by decide, by decide, by decide⟩

/-- Concrete evaluation of the extractor on the sample text above. -/
theorem msTwoRecord_eval : extract_morningstar msTwoText = some msTwoRecord := by decide

/-- Claim C1 witness: concrete inputs discharging the parse hypotheses. -/
theorem extraction_totality_witness :
    (extract_aj_bell ajCashText).isSome ∧
    (extract_morningstar msTwoText).isSome :=
  ⟨(extraction_totality ajCashText).1 (by decide),
   (extraction_totality msTwoText).2 (by decide) (by decide)⟩

theorem takeWhile_cons_destruct (P : Char → Bool) (l : List Char) (c : Char)
    (cs : List Char) (h : l.takeWhile P = c :: cs) :
    ∃ t, l = c :: t ∧ P c = true ∧ t.takeWhile P = cs := by
  match l with
  | [] => simp at h
  | a :: t =>
    rw [List.takeWhile_cons] at h
    split at h
    · cases h
      exact ⟨t, rfl, by assumption, rfl⟩
    · simp at h

theorem takeRun_takeWhile (p P : Char → Bool) (h : ∀ c, p c = true → P c = true)
    (l : List Char) :
    takeRun p (l.takeWhile P) =
      ((takeRun p l).1, ((takeRun p l).2).takeWhile P) := by
  induction l with
  | nil => simp [takeRun]
  | cons c t ih =>
    by_cases hp : p c = true
    · rw [List.takeWhile_cons, if_pos (h c hp)]
      simp [takeRun, hp, ih]
    · have hp2 : p c = false := by simpa using hp
      rw [List.takeWhile_cons]
      by_cases hP : P c = true
      · rw [if_pos hP]
        simp [takeRun, hp2, List.takeWhile_cons, hP]
      · rw [if_neg hP]
        have hP2 : P c = false := by simpa using hP
        simp [takeRun, hp2, List.takeWhile_cons, hP2]

theorem amount_class_no_newline (c : Char)
    (hc : (c.isDigit || c = ',') = true) : decide (c ≠ '\n') = true := by
  by_cases hcn : c = '\n'
  · subst hcn
    exact absurd hc (by decide)
  · simp [hcn]

theorem matchAmount_some_takeWhile (l : List Char) (pr : List Char × List Char)
    (h : matchAmount l = some pr) :
    ∃ pr2, matchAmount (l.takeWhile (fun c => c ≠ '\n')) = some pr2 ∧
      pr2.1 = pr.1 := by
  rw [matchAmount] at h
  split at h
  · exact absurd h (by simp)
  next hne =>
    split at h
    next d1 d2 rest2 heq =>
      split at h
      next hd =>
        simp only [Bool.and_eq_true] at hd
        cases h
        have hd1n : decide (d1 ≠ '\n') = true := by
          have hdig := hd.1
          by_cases hx : d1 = '\n'
          · rw [hx] at hdig; exact absurd hdig (by decide)
          · simp [hx]
        have hd2n : decide (d2 ≠ '\n') = true := by
          have hdig := hd.2
          by_cases hx : d2 = '\n'
          · rw [hx] at hdig; exact absurd hdig (by decide)
          · simp [hx]
        have hdot : (decide (('.' : Char) ≠ '\n')) = true := by decide
        have h2 : List.takeWhile (fun c => decide (c ≠ '\n'))
            ('.' :: d1 :: d2 :: rest2) =
            '.' :: d1 :: d2 :: rest2.takeWhile (fun c => decide (c ≠ '\n')) := by
          simp only [List.takeWhile_cons, hdot, hd1n, hd2n, if_true]
        rw [matchAmount, takeRun_takeWhile _ _ amount_class_no_newline, heq]
        rw [h2, if_neg hne]
        refine ⟨((takeRun (fun c => c.isDigit || c = ',') l).1 ++ '.' :: [d1, d2],
          rest2.takeWhile (fun c => c ≠ '\n')), ?_, rfl⟩
        simp [hd.1, hd.2]
      next => exact absurd h (by simp)
    next => exact absurd h (by simp)

theorem matchAmount_takeWhile_some (l : List Char) (pr : List Char × List Char)
    (h : matchAmount (l.takeWhile (fun c => c ≠ '\n')) = some pr) :
    ∃ pr2, matchAmount l = some pr2 ∧ pr2.1 = pr.1 := by
  rw [matchAmount, takeRun_takeWhile _ _ amount_class_no_newline] at h
  split at h
  · exact absurd h (by simp)
  next hne =>
    split at h
    next d1 d2 rest2 heq =>
      split at h
      next hd =>
        simp only [Bool.and_eq_true] at hd
        cases h
        obtain ⟨t1, he1, _, ht1⟩ := takeWhile_cons_destruct _ _ _ _ heq
        obtain ⟨t2, he2, _, ht2⟩ := takeWhile_cons_destruct _ _ _ _ ht1
        obtain ⟨t3, he3, _, ht3⟩ := takeWhile_cons_destruct _ _ _ _ ht2
        rw [matchAmount, if_neg hne, he1, he2, he3]
        refine ⟨((takeRun (fun c => c.isDigit || c = ',') l).1 ++
          '.' :: [d1, d2], t3), ?_, rfl⟩
        simp [hd.1, hd.2]
      next => exact absurd h (by simp)
    next => exact absurd h (by simp)

theorem matchAmount_map_takeWhile (l : List Char) :
    (matchAmount (l.takeWhile (fun c => c ≠ '\n'))).map (fun x => x.1) =
      (matchAmount l).map (fun x => x.1) := by
  match h : matchAmount l with
  | some pr =>
    obtain ⟨pr2, h2, hf⟩ := matchAmount_some_takeWhile l pr h
    rw [h2]
    simp [hf]
  | none =>
    match h2 : matchAmount (l.takeWhile (fun c => c ≠ '\n')) with
    | none => rfl
    | some pr =>
      obtain ⟨pr2, h3, _⟩ := matchAmount_takeWhile_some l pr h2
      rw [h] at h3
      exact absurd h3 (by simp)

theorem poundAmountAt_takeWhile (l : List Char) :
    poundAmountAt (l.takeWhile (fun c => c ≠ '\n')) = poundAmountAt l := by
  match l with
  | [] => rfl
  | c :: t =>
    by_cases hc : c = '£'
    · subst hc
      rw [show ('£' :: t).takeWhile (fun c => c ≠ '\n') =
        '£' :: t.takeWhile (fun c => c ≠ '\n') from by simp]
      rw [poundAmountAt, poundAmountAt]
      have hl : ∀ X : List Char, lit ['£'] ('£' :: X) = some X := by
        intro X
        simp [lit, List.isPrefixOf]
      rw [hl, hl]
      exact matchAmount_map_takeWhile t
    · by_cases hcn : c = '\n'
      · subst hcn
        rw [show ('\n' :: t).takeWhile (fun c => c ≠ '\n') = [] from by simp]
        rw [poundAmountAt, poundAmountAt]
        simp [lit, List.isPrefixOf]
      · have hcs : ¬ ('£' = c) := fun hh => hc hh.symm
        rw [show (c :: t).takeWhile (fun c => c ≠ '\n') =
          c :: t.takeWhile (fun c => c ≠ '\n') from by simp [hcn]]
        rw [poundAmountAt, poundAmountAt]
        simp [lit, List.isPrefixOf, hcs]

theorem cashGap_eq (cs : List Char) :
    cashGap cs = reSearch poundAmountAt (cs.takeWhile (fun c => c ≠ '\n')) := by
  induction cs with
  | nil => rfl
  | cons c t ih =>
    by_cases hcn : c = '\n'
    · subst hcn
      rw [cashGap]
      rw [show ('\n' :: t).takeWhile (fun c => c ≠ '\n') = [] from by simp]
      have hp : poundAmountAt ('\n' :: t) = none := by
        rw [poundAmountAt]
        simp [lit, List.isPrefixOf]
      rw [hp]
      simp [reSearch, poundAmountAt, lit]
    · rw [cashGap]
      rw [show (c :: t).takeWhile (fun c => c ≠ '\n') =
        c :: t.takeWhile (fun c => c ≠ '\n') from by simp [hcn]]
      rw [reSearch]
      have hp : poundAmountAt (c :: t.takeWhile (fun c => c ≠ '\n')) =
          poundAmountAt (c :: t) := by
        have h0 := poundAmountAt_takeWhile (c :: t)
        rwa [show (c :: t).takeWhile (fun c => c ≠ '\n') =
          c :: t.takeWhile (fun c => c ≠ '\n') from by simp [hcn]] at h0
      rw [hp]
      cases hps : poundAmountAt (c :: t) with
      | some cap => rfl
      | none => simp [hcn, ih]

theorem matchCashInAt_eq_spec (cs : List Char) :
    matchCashInAt cs = specCashInCapAt cs := by
  rw [matchCashInAt, specCashInCapAt]
  cases h : lit "Cash in".toList cs with
  | none => rfl
  | some r => simp [cashGap_eq]

theorem ajContrib_eq_spec (text : List Char) : ajContrib text = specContrib text := by
  rw [ajContrib, specContrib]
  rw [show matchCashInAt = specCashInCapAt from funext matchCashInAt_eq_spec]

/-- Claim C6 (amended): the ISA contributions field agrees with the
specification-side same-line rule: the leftmost Cash in occurrence followed
on its own line by a pound-prefixed amount, 0 when no such same-line match
exists; an amount on a later line is not picked up. -/
theorem contributions_same_line (text : List Char) (r : NormalizedRecord)
    (h : extract_aj_bell text = some r) :
    ∀ a ∈ r.accounts, some a.contributions = specContrib text := by
  simp only [extract_aj_bell] at h
  split at h
  · split at h
    next v c p ra hv hc hp hra =>
      cases h
      intro a ha
      rw [List.mem_singleton] at ha
      subst ha
      rw [← ajContrib_eq_spec]
      exact hc.symm
    next => exact absurd h (by simp)
  · cases h
    intro a ha
    simp at ha

/-- Claim C6 witness: the same-line rule at a concrete input. -/
theorem contributions_same_line_witness :
    some ajCashAccount.contributions = specContrib ajCashText :=
  contributions_same_line ajCashText ajCashRecord (by decide) ajCashAccount
    (by decide)

/-- Claim C6 counterexample: the amount on the line after Cash in is left
out by the code (contributions 0) although the claim-side eventual rule
finds 12.34. -/
theorem contributions_later_line_cex :
    extract_aj_bell ajCashNlText = some ajCashNlRecord ∧
    ajCashNlRecord.accounts.map (fun a => a.contributions) = [0] ∧
    cashInEventualAmount ajCashNlText = some (mkRat 1234 100) ∧
    (mkRat 1234 100 : ℚ) ≠ 0 :=
  ⟨by decide, by decide, by decide, by decide⟩

/-- Claim C3 witness: the fallback record at a concrete unrecognized input. -/
theorem unrecognized_path_witness :
    main_dispatch "hello".toList = some unknownRecord ∧
      unknownRecord.provider = "Unknown" ∧
      unknownRecord.error = some "Provider not recognized" ∧
      unknownRecord.accounts = [] ∧ unknownRecord.total_value = 0 ∧
      unknownRecord.performance = none ∧ unknownRecord.client_name = none :=
  unrecognized_path "hello".toList (Or.inl (by decide))

/-- Claim C4 witness: priority at a text containing both markers. -/
theorem detect_provider_rules_witness :
    detect_provider "aj bell morningstar".toList = "AJ_BELL" :=
  (detect_provider_rules "aj bell morningstar".toList).2.2.2.2.1 (by decide)
    (by decide)

/-- Claim C8 witness: accounts with performances 4.0 and 6.0 give mean 5. -/
theorem ms_mean_claim_witness :
    (∃ q, msTwoRecord.performance = some (some q) ∧
      q * (msTwoRecord.accounts.length : ℚ) =
        (msTwoRecord.accounts.map (fun a => a.performance)).sum) ∧
    msTwoRecord.performance = some (some 5) :=
  ⟨(ms_mean_claim msTwoText msTwoRecord (by decide)).2.2 (by decide),
   by decide⟩

/-- Concrete evaluation of the extractor on the sample text above. -/
theorem msGateRecord_eval : extract_morningstar msGateText = some msGateRecord := by decide

/-- Claim C9 witness: a SIPP span without valuation yields no SIPP account. -/
theorem ms_valuation_gate_witness :
    ¬ (∃ a ∈ msGateRecord.accounts, a.type = "SIPP") :=
  fun hx =>
    absurd ((ms_valuation_gate msGateText msGateRecord (by decide)).2.mp hx)
      (by decide)

/-- Concrete evaluation of the extractor on the sample text above. -/
theorem ajEmptyRecord_eval : extract_aj_bell ajEmptyText = some ajEmptyRecord := by decide

/-- Claim C10 witness: a heading-free AJ Bell input. -/
theorem aj_no_heading_claim_witness :
    ajEmptyRecord.accounts = [] ∧ ajEmptyRecord.total_value = 0 :=
  (aj_no_heading_claim ajEmptyText ajEmptyRecord (by decide)).1 (by decide)
